import Mathlib

/-!
Shallow embedding of `src/app/utils/availabilityStringParser.ts`.

The source file has three exports:
* `decodeOptionValues` — decodes an encoded availability string into a list of
  index vectors by scanning the string with the tokenizer regex `[ :,-]`;
* `getOptionValueIndices` — maps target option-value strings to their indices
  in the product option catalog, throwing when a defined lookup finds no match;
* `isOptionValuePresent` — a memoized matcher over a `Map<string, Set<string>>`
  cache of canonicalized decoded sets.

JS numbers are modelled as `Int` (all values arising here are small non-negative
integers, so no floating-point behavior is observable), JS `undefined` entries as
`Option`, thrown exceptions as `Except String`, and the closed-over mutable cache
as an explicit association-list state threaded through the matcher.
-/

/-- Whitespace characters skipped by the leading-trim step of JS `parseInt`
(ASCII whitespace, NBSP, BOM and the Unicode line separators). -/
def jsWhitespace (c : Char) : Bool :=
  c = ' ' || c = '\t' || c = '\n' || c = '\r' || c = '\x0b' || c = '\x0c' ||
  c = '\xa0' || c = '\ufeff' || c = '\u2028' || c = '\u2029'

/-- Hexadecimal digit test used by JS `parseInt` after a `0x`/`0X` prefix. -/
def isHexDigitChar (c : Char) : Bool :=
  c.isDigit || (97 ≤ c.toNat && c.toNat ≤ 102) || (65 ≤ c.toNat && c.toNat ≤ 70)

/-- Numeric value of a hexadecimal digit character. -/
def hexDigitVal (c : Char) : Nat :=
  if c.isDigit then c.toNat - 48
  else if 97 ≤ c.toNat then c.toNat - 87
  else c.toNat - 55

/-- Value of a run of decimal digit characters. -/
def decVal (ds : List Char) : Nat :=
  ds.foldl (fun a c => a * 10 + (c.toNat - 48)) 0

/-- Value of a run of hexadecimal digit characters. -/
def hexVal (ds : List Char) : Nat :=
  ds.foldl (fun a c => a * 16 + hexDigitVal c) 0

/-- Optional leading sign consumed by JS `parseInt`, returning the sign and the
remaining characters. -/
def stripSign (l : List Char) : Int × List Char :=
  match l with
  | c :: r => if c = '+' then (1, r) else if c = '-' then (-1, r) else (1, l)
  | [] => (1, l)

/-- Decimal branch of JS `parseInt`: the longest leading digit run of the
post-sign characters, `none` (NaN) when that run is empty. -/
def decTail (sg : Int × List Char) : Option Int :=
  let ds := sg.2.takeWhile Char.isDigit
  if ds = [] then none else some (sg.1 * (decVal ds : Int))

/-- JS `Number.parseInt(s)` with no radix argument: skip leading whitespace,
consume an optional sign, detect a `0x`/`0X` hexadecimal prefix, then read the
longest valid digit run; `none` models the NaN result when no digit is read. -/
def jsParseInt (l : List Char) : Option Int :=
  let sg := stripSign (l.dropWhile jsWhitespace)
  match sg.2 with
  | c0 :: c1 :: r =>
    if c0 = '0' ∧ (c1 = 'x' ∨ c1 = 'X') then
      let ds := r.takeWhile isHexDigitChar
      if ds = [] then none else some (sg.1 * (hexVal ds : Int))
    else decTail sg
  | _ => decTail sg

/-- The expression `Number.parseInt(slice) || 0` from line 90 of the source:
NaN (and 0 itself) collapse to 0, any other parsed value passes through. -/
def jsParseIntOrZero (l : List Char) : Int :=
  match jsParseInt l with
  | none => 0
  | some v => v

/-- The four control characters of the tokenizer regex `[ :,-]` (line 80). -/
def isControlChar (c : Char) : Bool :=
  c = ' ' || c = ':' || c = ',' || c = '-'

/-- JS array index assignment `cur[depth] = v`. A negative index creates a
non-index property, invisible to `slice`/`pop`/`join`, hence a no-op here; an
index past the end appends (the pad branch mirrors JS sparse-array holes and is
never reached by the decoder, whose depth never exceeds the cursor length). -/
def setAt (l : List Int) (d : Int) (v : Int) : List Int :=
  if d < 0 then l
  else if d.toNat < l.length then l.set d.toNat v
  else l ++ List.replicate (d.toNat - l.length) 0 ++ [v]

/-- State of the decoding loop of `decodeOptionValues` (lines 81-118): the
characters of the numeric span accumulated since the last control character,
the previously consumed character (JS reads it as `s[token.index - 1]`), and
the mutable loop variables `cur`, `depth`, `range` and `options`. -/
structure DecodeState where
  span : List Char
  prev : Option Char
  cur : List Int
  depth : Int
  range : Option Int
  options : List (List Int)
deriving Repr, DecidableEq

/-- Initial decoder state (lines 81-86). -/
def initState : DecodeState := ⟨[], none, [], 0, none, []⟩

/-- The integers `r, r+1, ..., v-1` visited by `for (; range < v; range++)`. -/
def rangeList (r v : Int) : List Int :=
  (List.range (v - r).toNat).map (fun k => r + (k : Int))

/-- Range-expansion loop (lines 92-98): for each pending value, write it into
the cursor at the current depth and emit a snapshot; returns the final cursor
and the emitted snapshots in order. -/
def expandRange (depth : Int) : List Int → List Int → List Int × List (List Int)
  | cur, [] => (cur, [])
  | cur, k :: ks =>
    let cur1 := setAt cur depth k
    let p := expandRange depth cur1 ks
    (p.1, cur1 :: p.2)

/-- Body of the tokenizer loop (lines 88-117) for one control character `c`,
taking the parsed span value `v`, whether the preceding character is a comma,
and the four loop variables: expand any pending range, write `v` at the current
depth, then dispatch on the operation (`-` records a range start, `:` descends
one dimension, ` `/`,` emit — the comma only when not preceded by a comma —
and `,` additionally pops the cursor and decrements the depth). -/
def processTokenCore (v : Int) (prevComma : Bool) (cur : List Int) (depth : Int)
    (range : Option Int) (options : List (List Int)) (c : Char) : DecodeState :=
  let e := match range with
    | some r => expandRange depth cur (rangeList r v)
    | none => (cur, [])
  let options1 := options ++ e.2
  let cur2 := setAt e.1 depth v
  if c = '-' then ⟨[], some c, cur2, depth, some v, options1⟩
  else if c = ':' then ⟨[], some c, cur2, depth + 1, none, options1⟩
  else
    let options2 := if c = ' ' ∨ (c = ',' ∧ prevComma = false)
      then options1 ++ [cur2] else options1
    if c = ',' then ⟨[], some c, cur2.dropLast, depth - 1, none, options2⟩
    else ⟨[], some c, cur2, depth, none, options2⟩

/-- One tokenizer-loop iteration on the accumulated state. -/
def processToken (σ : DecodeState) (c : Char) : DecodeState :=
  processTokenCore (jsParseIntOrZero σ.span) (σ.prev == some ',')
    σ.cur σ.depth σ.range σ.options c

/-- One character of the scan: control characters run a loop iteration, any
other character extends the pending numeric span. -/
def decodeStep (σ : DecodeState) (c : Char) : DecodeState :=
  if isControlChar c then processToken σ c
  else ⟨σ.span ++ [c], some c, σ.cur, σ.depth, σ.range, σ.options⟩

/-- `decodeOptionValues` (lines 77-120): decode an encoded option value string
into the list of valid option-value index combinations. -/
def decodeOptionValues (s : String) : List (List Int) :=
  (s.data.foldl decodeStep initState).options

/-- The last character of a list, or the fallback when the list is empty: the
value the decoder's `prev` tracking takes after consuming the list. -/
def lastOr (p : Option Char) : List Char → Option Char
  | [] => p
  | c :: t => lastOr (some c) t

/-- Equality of modelled JS results (a thrown error or a returned value) is
decidable whenever both component types have decidable equality. -/
instance {ε α : Type} [DecidableEq ε] [DecidableEq α] : DecidableEq (Except ε α) :=
  fun a b =>
    match a, b with
    | .error e1, .error e2 =>
      if h : e1 = e2 then .isTrue (by rw [h]) else .isFalse (by simp [h])
    | .ok v1, .ok v2 =>
      if h : v1 = v2 then .isTrue (by rw [h]) else .isFalse (by simp [h])
    | .error _, .ok _ => .isFalse (by simp)
    | .ok _, .error _ => .isFalse (by simp)

/-- `Pick<ProductOption, 'name' | 'values'>` from the Storefront API: a named
option with its ordered value list; the optional-chaining `?.values?` in the
source guards a missing list, modelled with `Option`. -/
structure ProductOption where
  name : String
  values : Option (List String)
deriving Repr, DecidableEq

/-- JS `Array.prototype.indexOf` restricted to string arrays, with the not-found
result `-1` modelled as `none`. -/
def findIndex : List String → String → Option Nat
  | [], _ => none
  | a :: t, x => if a = x then some 0 else (findIndex t x).map (· + 1)

/-- The value list available at position `i`, i.e. the JS expression
`productOptions[index]?.values`: `none` when the position is past the end of
the catalog or the option there has no value list. -/
def valuesAt (opts : List ProductOption) (i : Nat) : Option (List String) :=
  (opts.get? i).bind (fun o => o.values)

/-- Message of the error thrown at lines 21-23 of the source. -/
def errMsg (v : String) : String :=
  "Option value \"" ++ v ++ "\" not found in product options"

/-- Body of the `map` callback of `getOptionValueIndices` (lines 17-27) at
position `i`: an undefined lookup (`?.` short-circuit) is returned as-is, an
`indexOf` miss throws, and a hit returns the index. -/
def resolveOne (opts : List ProductOption) (i : Nat) (v : String) :
    Except String (Option Int) :=
  match valuesAt opts i with
  | none => .ok none
  | some vs =>
    match findIndex vs v with
    | none => .error (errMsg v)
    | some k => .ok (some (k : Int))

/-- The `targetOptionValues.map(...)` traversal starting at position `i`; a
thrown error aborts the remaining positions, as JS exceptions do. -/
def getOptionValueIndicesFrom (opts : List ProductOption) (i : Nat) :
    List String → Except String (List (Option Int))
  | [] => .ok []
  | v :: rest =>
    match resolveOne opts i v with
    | .error e => .error e
    | .ok x =>
      match getOptionValueIndicesFrom opts (i + 1) rest with
      | .error e => .error e
      | .ok xs => .ok (x :: xs)

/-- `getOptionValueIndices` (lines 13-28): for a set of option values, the
indices of the option values in the product option set; throws when a value is
not found. -/
def getOptionValueIndices (targetOptionValues : List String)
    (productOptions : List ProductOption) : Except String (List (Option Int)) :=
  getOptionValueIndicesFrom productOptions 0 targetOptionValues

/-- Decimal rendering of a natural number, as JS number-to-string conversion
produces inside `Array.prototype.join`. -/
def natToDec (n : Nat) : String :=
  String.mk (Nat.toDigits 10 n)

/-- Decimal rendering of an integer (negative values cannot actually reach a
join in this code, but JS would print a leading minus sign). -/
def intToDec (i : Int) : String :=
  match i with
  | .ofNat n => natToDec n
  | .negSucc n => "-" ++ natToDec (n + 1)

/-- `optionValue.join(',')` from line 52: a decoded index vector rendered as
comma-joined integers. -/
def joinVec (v : List Int) : String :=
  String.intercalate "," (v.map intToDec)

/-- `optionValueIndices.join(',')` from line 67: the resolved indices joined by
commas, a JS `undefined` entry rendering as the empty string. -/
def joinKey (l : List (Option Int)) : String :=
  String.intercalate "," (l.map (fun x => match x with
    | none => ""
    | some i => intToDec i))

/-- The canonicalized decoded set stored in the cache for one encoded string
(lines 48-55): every decoded vector joined by commas. Membership in the JS
`Set` coincides with membership in this list. -/
def canonSet (s : String) : List String :=
  (decodeOptionValues s).map joinVec

/-- Lookup in the decode cache, modelling `Map.has`/`Map.get` keyed by the
exact encoded string. -/
def cacheLookup (enc : String) : List (String × List String) → Option (List String)
  | [] => none
  | (k, v) :: t => if k = enc then some v else cacheLookup enc t

/-- `isOptionValuePresent` (lines 36-70) with the closed-over
`decodedOptionValues` map made an explicit input and output. Returns the
updated cache, the number of `decodeOptionValues` invocations this call made
(the miss branch decodes twice: once for the `console.error` debug log at line
47 and once to build the stored set), and the result: the resolver's error if
one is thrown, otherwise whether the joined resolved indices are in the cached
canonicalized decoded set. -/
def isOptionValuePresent (cache : List (String × List String))
    (targetOptionValues : List String) (encodedOptionValues : String)
    (productOptions : List ProductOption) :
    List (String × List String) × Nat × Except String Bool :=
  let miss := (cacheLookup encodedOptionValues cache).isNone
  let cache1 := if miss
    then (encodedOptionValues, canonSet encodedOptionValues) :: cache
    else cache
  let calls := if miss then 2 else 0
  let r : Except String Bool :=
    match getOptionValueIndices targetOptionValues productOptions with
    | .error e => .error e
    | .ok idxs =>
      .ok (((cacheLookup encodedOptionValues cache1).getD []).contains (joinKey idxs))
  (cache1, calls, r)

/-- Every cache entry stores the canonicalized decoded set of its key: the
invariant every reachable cache state satisfies, since entries are only ever
inserted by the miss branch of `isOptionValuePresent`. -/
def cacheOK (cache : List (String × List String)) : Prop :=
  ∀ p ∈ cache, p.2 = canonSet p.1

/-- Decidable per-position mismatch test: position `j` (at catalog offset
`i0 + j`) has a defined value list in which the target value does not occur,
i.e. exactly the condition under which `getOptionValueIndicesFrom opts i0`
throws at local position `j`. -/
def failsAtFrom (opts : List ProductOption) (i0 : Nat) (ts : List String)
    (j : Nat) : Bool :=
  match ts.get? j, valuesAt opts (i0 + j) with
  | some v, some vs => (findIndex vs v).isNone
  | _, _ => false

/-- A successful cache lookup returns a stored entry. -/
theorem cacheLookup_mem {enc : String} {v : List String} :
    ∀ {cache : List (String × List String)},
    cacheLookup enc cache = some v → (enc, v) ∈ cache := by
  intro cache
  induction cache with
  | nil => intro h; exact absurd h (by simp [cacheLookup])
  | cons p t ih =>
    intro h
    rcases p with ⟨k, w⟩
    by_cases hk : k = enc
    · subst hk
      simp only [cacheLookup, if_pos rfl] at h
      cases h
      exact List.mem_cons_self _ _
    · simp only [cacheLookup, if_neg hk] at h
      exact List.mem_cons_of_mem _ (ih h)

/-- List `contains` on strings agrees with membership. -/
theorem string_contains_iff (l : List String) (a : String) :
    l.contains a = true ↔ a ∈ l :=
  List.elem_iff

/-- Joining a vector of defined indices is the same as joining the vector. -/
theorem joinKey_map_some (v : List Int) : joinKey (v.map some) = joinVec v := by
  have h : ((fun x => match x with
      | none => ""
      | some i => intToDec i) ∘ some) = intToDec := funext fun x => rfl
  simp only [joinKey, joinVec, List.map_map, h]

/-- Under a consistent cache, when the resolver succeeds the matcher answers
exactly the membership test of the joined indices in the canonicalized decoded
set of the encoded string. -/
theorem isOVP_eval (cache : List (String × List String)) (ts : List String)
    (enc : String) (opts : List ProductOption) (idxs : List (Option Int))
    (hc : cacheOK cache) (hr : getOptionValueIndices ts opts = .ok idxs) :
    (isOptionValuePresent cache ts enc opts).2.2 =
      .ok ((canonSet enc).contains (joinKey idxs)) := by
  have hset : cacheLookup enc
      (if (cacheLookup enc cache).isNone
        then (enc, canonSet enc) :: cache else cache) = some (canonSet enc) := by
    cases hmiss : cacheLookup enc cache with
    | none => simp [hmiss, cacheLookup]
    | some w =>
      have hw : w = canonSet enc := hc (enc, w) (cacheLookup_mem hmiss)
      simp [hmiss, hw]
  simp only [isOptionValuePresent, hr, hset, Option.getD_some]

/-- Claim C1, counterexample: the claim states that `decodeOptionValues "0-3 "`
does not contain the vector `[3]`; in fact it does, because the terminating
space emits the cursor, which by then holds the just-parsed range end `3`. -/
theorem c1_dash_range_counterexample :
    [(3 : Int)] ∈ decodeOptionValues "0-3 " := by decide

/-- Claim C1, amended: the dash-range expansion loop itself is end-exclusive
and contributes `[0]`, `[1]`, `[2]`, but the terminating space then emits the
cursor holding the range end, so `decodeOptionValues "0-3 "` yields exactly the
vectors `[0]`, `[1]`, `[2]`, `[3]`. -/
theorem c1_dash_range_amended :
    decodeOptionValues "0-3 " = [[0], [1], [2], [3]] := by decide

/-- Claim C2, counterexample: the claim states that
`decodeOptionValues "0:0,1 "` is exactly the set of vectors `[0,0]` and
`[0,1]`; in fact `[0,1]` is not in the result, because the comma pops the
innermost dimension and decrements the depth, so the following `1` overwrites
dimension 0 rather than dimension 1. -/
theorem c2_comma_counterexample :
    ([0, 1] : List Int) ∉ decodeOptionValues "0:0,1 " := by decide

/-- Claim C2, amended: after the comma emits `[0,0]`, the last-written
dimension is discarded and the depth decremented, so the following `1` is
written one dimension shallower (at dimension 0) and the space emits the
shortened cursor: `decodeOptionValues "0:0,1 "` yields exactly the vectors
`[0,0]` and `[1]`. -/
theorem c2_comma_amended :
    decodeOptionValues "0:0,1 " = [[0, 0], [1]] := by decide

/-- Claim C3: for every cache satisfying the reachable-state invariant, every
target-value sequence, encoded string and catalog on which the resolver
succeeds, `isOptionValuePresent` returns exactly the membership test of the
comma-joined resolved index vector in the canonicalized decoded set of the
encoded string — true iff the key is a member, false otherwise, with no
default-to-available fallback. -/
theorem c3_membership_iff (cache : List (String × List String))
    (ts : List String) (enc : String) (opts : List ProductOption)
    (idxs : List (Option Int)) (hc : cacheOK cache)
    (hr : getOptionValueIndices ts opts = .ok idxs) :
    (isOptionValuePresent cache ts enc opts).2.2 =
      .ok ((canonSet enc).contains (joinKey idxs)) ∧
    ((isOptionValuePresent cache ts enc opts).2.2 = .ok true ↔
      joinKey idxs ∈ canonSet enc) := by
  have h := isOVP_eval cache ts enc opts idxs hc hr
  refine ⟨h, ?_⟩
  rw [h]
  constructor
  · intro hok
    have : (canonSet enc).contains (joinKey idxs) = true := by
      cases hcontains : (canonSet enc).contains (joinKey idxs) with
      | true => rfl
      | false => rw [hcontains] at hok; cases hok
    exact (string_contains_iff _ _).mp this
  · intro hmem
    rw [(string_contains_iff (canonSet enc) (joinKey idxs)).mpr hmem]

/-- Claim C3, witness: a concrete 2×2 catalog where the combination resolving
to `[1, 1]` is absent from the decoded set of `"0:0,"` (which is `{[0,0]}`),
so the matcher reports false. -/
theorem c3_membership_iff_witness :
    (isOptionValuePresent [] ["Blue", "M"] "0:0,"
      [⟨"Color", some ["Red", "Blue"]⟩, ⟨"Size", some ["S", "M"]⟩]).2.2 =
      .ok ((canonSet "0:0,").contains (joinKey [some 1, some 1])) ∧
    ((isOptionValuePresent [] ["Blue", "M"] "0:0,"
      [⟨"Color", some ["Red", "Blue"]⟩, ⟨"Size", some ["S", "M"]⟩]).2.2 =
        .ok true ↔ joinKey [some 1, some 1] ∈ canonSet "0:0,") :=
  c3_membership_iff [] ["Blue", "M"] "0:0,"
    [⟨"Color", some ["Red", "Blue"]⟩, ⟨"Size", some ["S", "M"]⟩]
    [some 1, some 1] (fun p hp => absurd hp (List.not_mem_nil p)) (by decide)

/-- Claim C5: round-trip between decoder and matcher — whenever a vector `v`
is emitted by `decodeOptionValues enc` and the target combination resolves
exactly to `v`, the matcher reports available (from any cache satisfying the
reachable-state invariant). -/
theorem c5_round_trip (cache : List (String × List String)) (ts : List String)
    (enc : String) (opts : List ProductOption) (v : List Int)
    (hc : cacheOK cache) (hv : v ∈ decodeOptionValues enc)
    (hr : getOptionValueIndices ts opts = .ok (v.map some)) :
    (isOptionValuePresent cache ts enc opts).2.2 = .ok true := by
  have h := isOVP_eval cache ts enc opts (v.map some) hc hr
  rw [h, joinKey_map_some]
  have hmem : joinVec v ∈ canonSet enc := List.mem_map_of_mem joinVec hv
  rw [(string_contains_iff (canonSet enc) (joinVec v)).mpr hmem]

/-- Claim C5, witness: `[1, 0]` is emitted by decoding `"1:0-1,"`, and the
combination Blue/S resolves to `[1, 0]` in the concrete catalog, so the
matcher reports it available. -/
theorem c5_round_trip_witness :
    (isOptionValuePresent [] ["Blue", "S"] "1:0-1,"
      [⟨"Color", some ["Red", "Blue"]⟩, ⟨"Size", some ["S", "M"]⟩]).2.2 =
      .ok true :=
  c5_round_trip [] ["Blue", "S"] "1:0-1,"
    [⟨"Color", some ["Red", "Blue"]⟩, ⟨"Size", some ["S", "M"]⟩] [1, 0]
    (fun p hp => absurd hp (List.not_mem_nil p)) (by decide) (by decide)

/-- Claim C6: starting from any cache with no entry for the encoded string, a
first `isOptionValuePresent` call leaves the cache mapping that string to its
canonicalized decoded set, and a second call with the same arguments performs
zero decoder invocations, leaves the cache unchanged, and returns the same
result as the first call. -/
theorem c6_cache_consistency (cache : List (String × List String))
    (ts : List String) (enc : String) (opts : List ProductOption)
    (hnone : cacheLookup enc cache = none) :
    cacheLookup enc (isOptionValuePresent cache ts enc opts).1 =
      some (canonSet enc) ∧
    (isOptionValuePresent (isOptionValuePresent cache ts enc opts).1 ts enc
      opts).1 = (isOptionValuePresent cache ts enc opts).1 ∧
    (isOptionValuePresent (isOptionValuePresent cache ts enc opts).1 ts enc
      opts).2.1 = 0 ∧
    (isOptionValuePresent (isOptionValuePresent cache ts enc opts).1 ts enc
      opts).2.2 = (isOptionValuePresent cache ts enc opts).2.2 := by
  have hfst : (isOptionValuePresent cache ts enc opts).1 =
      (enc, canonSet enc) :: cache := by
    simp [isOptionValuePresent, hnone]
  have hhit : cacheLookup enc ((enc, canonSet enc) :: cache) =
      some (canonSet enc) := by
    simp [cacheLookup]
  refine ⟨by rw [hfst]; exact hhit, ?_, ?_, ?_⟩
  · rw [hfst]; simp [isOptionValuePresent, hhit]
  · rw [hfst]; simp [isOptionValuePresent, hhit]
  · rw [hfst]
    simp only [isOptionValuePresent, hhit, hnone, Option.isNone_some,
      Option.isNone_none, Bool.false_eq_true, if_false, if_true]

/-- Claim C6, witness: concrete first and second calls with the same encoded
string from the empty cache. -/
theorem c6_cache_consistency_witness :
    cacheLookup "0:0," (isOptionValuePresent [] ["Red", "S"] "0:0,"
      [⟨"Color", some ["Red", "Blue"]⟩, ⟨"Size", some ["S", "M"]⟩]).1 =
      some (canonSet "0:0,") ∧
    (isOptionValuePresent (isOptionValuePresent [] ["Red", "S"] "0:0,"
      [⟨"Color", some ["Red", "Blue"]⟩, ⟨"Size", some ["S", "M"]⟩]).1
      ["Red", "S"] "0:0,"
      [⟨"Color", some ["Red", "Blue"]⟩, ⟨"Size", some ["S", "M"]⟩]).1 =
      (isOptionValuePresent [] ["Red", "S"] "0:0,"
      [⟨"Color", some ["Red", "Blue"]⟩, ⟨"Size", some ["S", "M"]⟩]).1 ∧
    (isOptionValuePresent (isOptionValuePresent [] ["Red", "S"] "0:0,"
      [⟨"Color", some ["Red", "Blue"]⟩, ⟨"Size", some ["S", "M"]⟩]).1
      ["Red", "S"] "0:0,"
      [⟨"Color", some ["Red", "Blue"]⟩, ⟨"Size", some ["S", "M"]⟩]).2.1 = 0 ∧
    (isOptionValuePresent (isOptionValuePresent [] ["Red", "S"] "0:0,"
      [⟨"Color", some ["Red", "Blue"]⟩, ⟨"Size", some ["S", "M"]⟩]).1
      ["Red", "S"] "0:0,"
      [⟨"Color", some ["Red", "Blue"]⟩, ⟨"Size", some ["S", "M"]⟩]).2.2 =
      (isOptionValuePresent [] ["Red", "S"] "0:0,"
      [⟨"Color", some ["Red", "Blue"]⟩, ⟨"Size", some ["S", "M"]⟩]).2.2 :=
  c6_cache_consistency [] ["Red", "S"] "0:0,"
    [⟨"Color", some ["Red", "Blue"]⟩, ⟨"Size", some ["S", "M"]⟩] rfl

/-- Shifting the local position of the mismatch test across a cons. -/
theorem failsAtFrom_cons (opts : List ProductOption) (i0 : Nat) (w : String)
    (rest : List String) (j : Nat) :
    failsAtFrom opts i0 (w :: rest) (j + 1) = failsAtFrom opts (i0 + 1) rest j := by
  have h : i0 + (j + 1) = i0 + 1 + j := by omega
  simp only [failsAtFrom, List.get?_cons_succ, h]

/-- When position `i` is the first failing position, the indexed traversal
throws the error naming the target value at `i`. -/
theorem getFrom_error (opts : List ProductOption) :
    ∀ (ts : List String) (i0 i : Nat) (v : String) (vs : List String),
    ts.get? i = some v → valuesAt opts (i0 + i) = some vs →
    findIndex vs v = none →
    (∀ j, j < i → failsAtFrom opts i0 ts j = false) →
    getOptionValueIndicesFrom opts i0 ts = .error (errMsg v) := by
  intro ts
  induction ts with
  | nil =>
    intro i0 i v vs hget
    exact absurd hget (by simp)
  | cons w rest ih =>
    intro i0 i v vs hget hvals hfind hprev
    cases i with
    | zero =>
      have hw : w = v := by
        have := hget
        rw [List.get?_cons_zero] at this
        exact Option.some.inj this
      subst hw
      have hv0 : valuesAt opts i0 = some vs := by
        have h0 : i0 + 0 = i0 := rfl
        rw [h0] at hvals; exact hvals
      simp [getOptionValueIndicesFrom, resolveOne, hv0, hfind]
    | succ i' =>
      have h0 : failsAtFrom opts i0 (w :: rest) 0 = false :=
        hprev 0 (Nat.succ_pos i')
      have htail : getOptionValueIndicesFrom opts (i0 + 1) rest = .error (errMsg v) := by
        apply ih (i0 + 1) i' v vs
        · rw [← List.get?_cons_succ (a := w)]; exact hget
        · rw [show i0 + 1 + i' = i0 + (i' + 1) by omega]; exact hvals
        · exact hfind
        · intro j hj
          rw [← failsAtFrom_cons]
          exact hprev (j + 1) (Nat.succ_lt_succ hj)
      cases hva : valuesAt opts i0 with
      | none =>
        simp [getOptionValueIndicesFrom, resolveOne, hva, htail]
      | some vs0 =>
        have hne : (findIndex vs0 w).isNone = false := by
          have := h0
          simp only [failsAtFrom, List.get?_cons_zero] at this
          rw [show i0 + 0 = i0 from rfl, hva] at this
          exact this
        cases hfi : findIndex vs0 w with
        | none => rw [hfi] at hne; cases hne
        | some k =>
          simp [getOptionValueIndicesFrom, resolveOne, hva, hfi, htail]

/-- Claim C4: when position `i` is the first position at which the target value
has a defined value list with no exact match, `getOptionValueIndices` returns
the error identifying that value (never `-1` or a substituted index 0), and
`isOptionValuePresent` propagates exactly that error rather than returning a
boolean. -/
theorem c4_value_not_found (cache : List (String × List String))
    (ts : List String) (enc : String) (opts : List ProductOption) (i : Nat)
    (v : String) (vs : List String) (hget : ts.get? i = some v)
    (hvals : valuesAt opts i = some vs) (hfind : findIndex vs v = none)
    (hprev : ∀ j, j < i → failsAtFrom opts 0 ts j = false) :
    getOptionValueIndices ts opts = .error (errMsg v) ∧
    (isOptionValuePresent cache ts enc opts).2.2 = .error (errMsg v) := by
  have hmain : getOptionValueIndices ts opts = .error (errMsg v) := by
    apply getFrom_error opts ts 0 i v vs hget
    · rw [Nat.zero_add]; exact hvals
    · exact hfind
    · exact hprev
  exact ⟨hmain, by simp [isOptionValuePresent, hmain]⟩

/-- Claim C4, witness: the spec's own example — looking up `"Purple"` in a
catalog whose single option has values `["Red", "Blue"]` throws the
value-not-found error, and the matcher propagates it. -/
theorem c4_value_not_found_witness :
    getOptionValueIndices ["Purple"] [⟨"Color", some ["Red", "Blue"]⟩] =
      .error (errMsg "Purple") ∧
    (isOptionValuePresent [] ["Purple"] "0 "
      [⟨"Color", some ["Red", "Blue"]⟩]).2.2 = .error (errMsg "Purple") :=
  c4_value_not_found [] ["Purple"] "0 " [⟨"Color", some ["Red", "Blue"]⟩] 0
    "Purple" ["Red", "Blue"] rfl rfl (by decide)
    (fun j hj => absurd hj (Nat.not_lt_zero j))

/-- When no position fails, the indexed traversal succeeds, produces one entry
per target value, and every position whose catalog lookup is undefined gets an
undefined entry. -/
theorem getFrom_ok (opts : List ProductOption) :
    ∀ (ts : List String) (i0 : Nat),
    (∀ j, j < ts.length → failsAtFrom opts i0 ts j = false) →
    ∃ l, getOptionValueIndicesFrom opts i0 ts = .ok l ∧
      l.length = ts.length ∧
      ∀ j, j < ts.length → valuesAt opts (i0 + j) = none → l.get? j = some none := by
  intro ts
  induction ts with
  | nil =>
    intro i0 _
    exact ⟨[], rfl, rfl, fun j hj => absurd hj (Nat.not_lt_zero j)⟩
  | cons w rest ih =>
    intro i0 h
    obtain ⟨l1, hl1, hlen1, hspec1⟩ := ih (i0 + 1) (fun j hj => by
      rw [← failsAtFrom_cons]
      exact h (j + 1) (Nat.succ_lt_succ hj))
    have h0 : failsAtFrom opts i0 (w :: rest) 0 = false :=
      h 0 (Nat.succ_pos rest.length)
    cases hva : valuesAt opts i0 with
    | none =>
      refine ⟨none :: l1, ?_, ?_, ?_⟩
      · simp [getOptionValueIndicesFrom, resolveOne, hva, hl1]
      · simp [hlen1]
      · intro j hj hv
        cases j with
        | zero => rfl
        | succ j' =>
          rw [List.get?_cons_succ]
          apply hspec1 j' (Nat.lt_of_succ_lt_succ (by simpa using hj))
          rw [show i0 + 1 + j' = i0 + (j' + 1) by omega]
          exact hv
    | some vs0 =>
      have hne : (findIndex vs0 w).isNone = false := by
        have := h0
        simp only [failsAtFrom, List.get?_cons_zero] at this
        rw [show i0 + 0 = i0 from rfl, hva] at this
        exact this
      cases hfi : findIndex vs0 w with
      | none => rw [hfi] at hne; cases hne
      | some k =>
        refine ⟨some (k : Int) :: l1, ?_, ?_, ?_⟩
        · simp [getOptionValueIndicesFrom, resolveOne, hva, hfi, hl1]
        · simp [hlen1]
        · intro j hj hv
          cases j with
          | zero =>
            rw [show i0 + 0 = i0 from rfl, hva] at hv
            cases hv
          | succ j' =>
            rw [List.get?_cons_succ]
            apply hspec1 j' (Nat.lt_of_succ_lt_succ (by simpa using hj))
            rw [show i0 + 1 + j' = i0 + (j' + 1) by omega]
            exact hv

/-- Claim C10: when every defined position matches, `getOptionValueIndices`
raises no error even if the target sequence is longer than the catalog or an
option lacks a values list: it returns one entry per target value, with an
undefined (`none`) entry at every position whose catalog lookup is undefined,
so an out-of-range target value is not reported as a lookup failure. -/
theorem c10_undefined_positions (ts : List String) (opts : List ProductOption)
    (h : ∀ j, j < ts.length → failsAtFrom opts 0 ts j = false) :
    ∃ l, getOptionValueIndices ts opts = .ok l ∧ l.length = ts.length ∧
      ∀ j, j < ts.length → valuesAt opts j = none → l.get? j = some none := by
  obtain ⟨l, hl, hlen, hspec⟩ := getFrom_ok opts ts 0 h
  refine ⟨l, hl, hlen, fun j hj hv => ?_⟩
  apply hspec j hj
  rw [Nat.zero_add]
  exact hv

/-- Claim C10, witness: a three-value target against a catalog with one
matching option and one option without a values list — positions 1 (no values
list) and 2 (past the end of the catalog) yield undefined entries and no
error. -/
theorem c10_undefined_positions_witness :
    ∃ l, getOptionValueIndices ["Red", "XL", "Z"]
      [⟨"Color", some ["Red", "Blue"]⟩, ⟨"Size", none⟩] = .ok l ∧
      l.length = (["Red", "XL", "Z"] : List String).length ∧
      ∀ j, j < (["Red", "XL", "Z"] : List String).length →
        valuesAt [⟨"Color", some ["Red", "Blue"]⟩, ⟨"Size", none⟩] j = none →
        l.get? j = some none :=
  c10_undefined_positions ["Red", "XL", "Z"]
    [⟨"Color", some ["Red", "Blue"]⟩, ⟨"Size", none⟩] (by decide)

/-- Scanning a run of non-control characters only accumulates them onto the
pending span and updates the previously-seen character; the cursor, depth,
pending range and emitted options are untouched. -/
theorem foldl_nonControl :
    ∀ (t : List Char) (σ : DecodeState), (∀ x ∈ t, isControlChar x = false) →
    t.foldl decodeStep σ =
      ⟨σ.span ++ t, lastOr σ.prev t, σ.cur, σ.depth, σ.range, σ.options⟩ := by
  intro t
  induction t with
  | nil =>
    intro σ _
    simp [lastOr]
  | cons c t ih =>
    intro σ h
    have hc : isControlChar c = false := h c (List.mem_cons_self c t)
    have hstep : decodeStep σ c =
        ⟨σ.span ++ [c], some c, σ.cur, σ.depth, σ.range, σ.options⟩ := by
      simp [decodeStep, hc]
    rw [List.foldl_cons, hstep,
      ih _ (fun x hx => h x (List.mem_cons_of_mem c hx))]
    simp [lastOr, List.append_assoc]

/-- Claim C9: a trailing fragment with no control character is never emitted —
appending any control-free suffix to a string leaves the decoded result
unchanged, so a string ending in a numeric fragment decodes exactly as its
truncation after the last control character. -/
theorem c9_trailing_fragment (s : String) (frag : List Char)
    (h : ∀ x ∈ frag, isControlChar x = false) :
    decodeOptionValues (String.mk (s.data ++ frag)) = decodeOptionValues s := by
  show ((s.data ++ frag).foldl decodeStep initState).options =
    (s.data.foldl decodeStep initState).options
  rw [List.foldl_append, foldl_nonControl frag _ h]

/-- Claim C9, witness: `"0:1 23"` decodes exactly as `"0:1 "`. -/
theorem c9_trailing_fragment_witness :
    decodeOptionValues (String.mk ("0:1 ".data ++ ['2', '3'])) =
      decodeOptionValues "0:1 " :=
  c9_trailing_fragment "0:1 " ['2', '3'] (by decide)

/-- Every branch of a tokenizer-loop iteration resets the pending span. -/
theorem processTokenCore_span (v : Int) (b : Bool) (cur : List Int) (d : Int)
    (r : Option Int) (o : List (List Int)) (c : Char) :
    (processTokenCore v b cur d r o c).span = [] := by
  unfold processTokenCore
  dsimp only
  split
  · rfl
  · split
    · rfl
    · split <;> rfl

/-- The `prev` value accumulated over a nonempty list is its last element. -/
theorem lastOr_mem : ∀ (t : List Char) (p : Option Char), t ≠ [] →
    ∃ x, lastOr p t = some x ∧ x ∈ t := by
  intro t
  induction t with
  | nil => intro p h; exact absurd rfl h
  | cons c t ih =>
    intro p _
    cases t with
    | nil => exact ⟨c, rfl, List.mem_cons_self c []⟩
    | cons d t2 =>
      obtain ⟨x, hx, hxmem⟩ := ih (some c) (by simp)
      exact ⟨x, hx, List.mem_cons_of_mem c hxmem⟩

/-- A span containing no decimal digit parses to 0: the whitespace trim and
sign strip leave a digit-free list, the hexadecimal prefix cannot apply (it
would need a leading `0`), and the decimal digit run is empty, so `parseInt`
yields NaN, which `|| 0` collapses to 0. -/
theorem digitFree_parse_zero (t : List Char) (h : ∀ x ∈ t, x.isDigit = false) :
    jsParseIntOrZero t = 0 := by
  have hmem1 : ∀ x ∈ t.dropWhile jsWhitespace, x.isDigit = false :=
    fun x hx => h x ((List.dropWhile_sublist jsWhitespace).subset hx)
  have hmem2 : ∀ x ∈ (stripSign (t.dropWhile jsWhitespace)).2, x.isDigit = false := by
    intro x hx
    apply hmem1
    cases hl : t.dropWhile jsWhitespace with
    | nil =>
      rw [hl] at hx
      simp [stripSign] at hx
    | cons c r =>
      rw [hl] at hx
      simp only [stripSign] at hx
      by_cases hp : c = '+'
      · simp only [if_pos hp] at hx
        exact List.mem_cons_of_mem c hx
      · simp only [if_neg hp] at hx
        by_cases hm : c = '-'
        · simp only [if_pos hm] at hx
          exact List.mem_cons_of_mem c hx
        · simp only [if_neg hm] at hx
          exact hx
  cases hsg : (stripSign (t.dropWhile jsWhitespace)).2 with
  | nil => simp [jsParseIntOrZero, jsParseInt, hsg, decTail]
  | cons c0 r2 =>
    have hc0 : c0.isDigit = false :=
      hmem2 c0 (by rw [hsg]; exact List.mem_cons_self _ _)
    cases r2 with
    | nil =>
      simp [jsParseIntOrZero, jsParseInt, hsg, decTail, List.takeWhile_cons, hc0]
    | cons c1 r3 =>
      have hne0 : ¬(c0 = '0' ∧ (c1 = 'x' ∨ c1 = 'X')) := by
        rintro ⟨h0, _⟩
        rw [h0] at hc0
        exact absurd hc0 (by decide)
      simp [jsParseIntOrZero, jsParseInt, hsg, hne0, decTail,
        List.takeWhile_cons, hc0]

/-- Claim C7: the decoder is total — defined for every input string — and
lenient about non-numeric spans. First conjunct: any span containing no digit
parses to the value 0 (this covers the empty span). Second conjunct: replacing
a nonempty digit-free, control-free span between two control characters by the
single character `0` does not change the decoded result, so such spans behave
exactly like an explicit 0 rather than failing the decode. -/
theorem c7_lenient_spans :
    (∀ t : List Char, (∀ x ∈ t, x.isDigit = false) → jsParseIntOrZero t = 0) ∧
    (∀ (pre t rest : List Char) (c : Char), isControlChar c = true →
      t ≠ [] → (∀ x ∈ t, isControlChar x = false ∧ x.isDigit = false) →
      (pre = [] ∨ ∃ p pc, isControlChar pc = true ∧ pre = p ++ [pc]) →
      decodeOptionValues (String.mk (pre ++ t ++ c :: rest)) =
        decodeOptionValues (String.mk (pre ++ '0' :: c :: rest))) := by
  constructor
  · exact digitFree_parse_zero
  · intro pre t rest c hc ht hfree hpre
    have hspan : (pre.foldl decodeStep initState).span = [] := by
      rcases hpre with rfl | ⟨p, pc, hpc, rfl⟩
      · rfl
      · rw [List.foldl_append]
        simp only [List.foldl_cons, List.foldl_nil]
        simp only [decodeStep, hpc, if_true, processToken]
        exact processTokenCore_span _ _ _ _ _ _ _
    set σ0 := pre.foldl decodeStep initState with hσ0
    have hA : t.foldl decodeStep σ0 =
        ⟨t, lastOr σ0.prev t, σ0.cur, σ0.depth, σ0.range, σ0.options⟩ := by
      rw [foldl_nonControl t σ0 (fun x hx => (hfree x hx).1), hspan,
        List.nil_append]
    obtain ⟨x, hxeq, hxmem⟩ := lastOr_mem t σ0.prev ht
    have hxne : x ≠ ',' := by
      intro hcontra
      have hcx := (hfree x hxmem).1
      rw [hcontra] at hcx
      exact absurd hcx (by decide)
    have hprevA : (lastOr σ0.prev t == some ',') = false := by
      rw [hxeq]
      exact beq_eq_false_iff_ne.mpr (fun hcontra => hxne (Option.some.inj hcontra))
    have hparseA : jsParseIntOrZero t = 0 :=
      digitFree_parse_zero t (fun y hy => (hfree y hy).2)
    have hstepA : decodeStep (t.foldl decodeStep σ0) c =
        processTokenCore 0 false σ0.cur σ0.depth σ0.range σ0.options c := by
      rw [hA]
      simp only [decodeStep, hc, if_true, processToken]
      rw [hparseA, hprevA]
    have hstepB : decodeStep (decodeStep σ0 '0') c =
        processTokenCore 0 false σ0.cur σ0.depth σ0.range σ0.options c := by
      have hzero : isControlChar '0' = false := by decide
      have h0 : decodeStep σ0 '0' =
          ⟨['0'], some '0', σ0.cur, σ0.depth, σ0.range, σ0.options⟩ := by
        simp only [decodeStep, hzero, Bool.false_eq_true, if_false, hspan,
          List.nil_append]
      rw [h0]
      simp only [decodeStep, hc, if_true, processToken]
      rw [show jsParseIntOrZero ['0'] = 0 by decide,
        show ((some '0' : Option Char) == some ',') = false by decide]
    have hfinal : (pre ++ t ++ c :: rest).foldl decodeStep initState =
        (pre ++ '0' :: c :: rest).foldl decodeStep initState := by
      rw [List.foldl_append, List.foldl_append, List.foldl_append]
      show (c :: rest).foldl decodeStep (t.foldl decodeStep σ0) =
        ('0' :: c :: rest).foldl decodeStep σ0
      rw [List.foldl_cons, List.foldl_cons, List.foldl_cons, hstepA, hstepB]
    show ((pre ++ t ++ c :: rest).foldl decodeStep initState).options =
      ((pre ++ '0' :: c :: rest).foldl decodeStep initState).options
    rw [hfinal]

/-- Claim C7, witness: the digit-free span `x` parses to 0, and the string
`"x,1 "` decodes exactly as `"0,1 "`. -/
theorem c7_lenient_spans_witness :
    jsParseIntOrZero ['x'] = 0 ∧
    decodeOptionValues (String.mk (([] : List Char) ++ ['x'] ++ ',' :: "1 ".data)) =
      decodeOptionValues (String.mk (([] : List Char) ++ '0' :: ',' :: "1 ".data)) :=
  ⟨c7_lenient_spans.1 ['x'] (by decide),
   c7_lenient_spans.2 [] ['x'] "1 ".data ',' (by decide) (by decide) (by decide)
     (Or.inl rfl)⟩

/-- Claim C8, counterexample: the decoded set is not constrained by the
catalog length — `"0 "` decodes to a vector of length 1, a query of a 2×2
catalog against it proceeds and answers an ordinary boolean, yet 1 is not the
catalog length 2. -/
theorem c8_length_counterexample :
    ([0] : List Int) ∈ decodeOptionValues "0 " ∧
    ([(0 : Int)] : List Int).length ≠
      ([⟨"Color", some ["Red", "Blue"]⟩, ⟨"Size", some ["S", "M"]⟩] :
        List ProductOption).length ∧
    (isOptionValuePresent [] ["Red", "S"] "0 "
      [⟨"Color", some ["Red", "Blue"]⟩, ⟨"Size", some ["S", "M"]⟩]).2.2 =
      .ok false := by decide

/-- Claim C8, amended: decoded index-vector lengths are determined by the
encoded string alone and are never validated against the catalog of the query;
the length invariant is an assumption on externally produced encodings, not a
property the code enforces. For example `"0:1 "` decodes to the single vector
`[0, 1]` of length 2, and querying it with a one-option catalog still runs
normally and reports unavailable. -/
theorem c8_length_amended :
    decodeOptionValues "0:1 " = [[0, 1]] ∧
    (isOptionValuePresent [] ["Red"] "0:1 "
      [⟨"Color", some ["Red", "Blue"]⟩]).2.2 = .ok false := by decide

